import Mathlib

/-!
# Verification of the reply-acquisition and delivery pipeline

Shallow embedding of the core of the `Personal-ai-Assist` repository
(`src/backend/brain.py` and `src/backend/tts.py`) together with proofs of the
testable properties stated in its specification.

Conventions of the embedding:
* Python strings are Lean `String`s (lists of characters); the Unicode-aware
  character classes `\w` and `\s` of Python's `re` module are modelled on their
  ASCII fragment (`Char.isAlphanum` / explicit ASCII whitespace), which is
  exact for every string appearing in the claims.
* The fallible remote generation call (the `client.chat.completions.create`
  stream consumed inside the `try` block of `think`) is modelled by an oracle
  `Nat → GenOutcome` giving the outcome of the n-th generation attempt of the
  call; an exception anywhere in the `try` block is a `GenOutcome.failure`
  carrying `str(e)`.
* Wall-clock sleeping, printing and audio are modelled by recording the
  observable effects (sleep durations, attempt sequence) in the result.
-/

/-! ## Python string-containment (`needle in hay`) -/

/-- `needle` is a literal prefix of `hay` (character lists). -/
def isPrefixChars : List Char → List Char → Bool
  | [], _ => true
  | _ :: _, [] => false
  | a :: as, b :: bs => a == b && isPrefixChars as bs

/-- `needle` occurs as a contiguous substring of `hay` (character lists). -/
def hasSubChars (needle : List Char) : List Char → Bool
  | [] => isPrefixChars needle []
  | c :: rest => isPrefixChars needle (c :: rest) || hasSubChars needle rest

/-- Python's `needle in hay` for strings. -/
def containsSub (hay needle : String) : Bool :=
  hasSubChars needle.data hay.data

/-- Python's `str.lower()`, ASCII fragment (character-wise lowercasing). -/
def pyLower (s : String) : String :=
  ⟨s.data.map Char.toLower⟩

/-! ## Character classes of `re` (ASCII fragment) -/

/-- Python's `\s` class, ASCII fragment: space, tab, newline, carriage return,
vertical tab, form feed. -/
def isPySpace (c : Char) : Bool :=
  c == ' ' || c == '\t' || c == '\n' || c == '\r' || c == '\x0b' || c == '\x0c'

/-- Python's `\w` class, ASCII fragment: alphanumerics and underscore. -/
def isPyWord (c : Char) : Bool :=
  c.isAlphanum || c == '_'

/-- The character class of the final strip in `clean_text_for_speech`
(`brain.py` line 42): the regex `[^\w\s,.!?\'"-:]` deletes everything but
`\w`, `\s`, the listed punctuation `, . ! ? '` and — because `"-:` is a
character *range* in a regex class — every code point from `"` (34) to
`:` (58), i.e. `" # $ % & ' ( ) * + , - . / 0-9 :`. -/
def allowedChar (c : Char) : Bool :=
  isPyWord c || isPySpace c ||
  c == ',' || c == '.' || c == '!' || c == '?' || c == '\'' ||
  (34 ≤ c.toNat && c.toNat ≤ 58)

/-! ## The sanitizer `clean_text_for_speech` (`brain.py` lines 33–43) -/

/-- `text.replace('**', '')`: delete non-overlapping occurrences of `**`,
scanning left to right (Python `str.replace` semantics). -/
def replacePairStars : List Char → List Char
  | [] => []
  | [c] => [c]
  | c :: d :: rest =>
    if c == '*' && d == '*' then replacePairStars rest
    else c :: replacePairStars (d :: rest)

/-- `re.sub(r'(?<!\*)\*(?!\*)', '', text)`: delete each `*` whose neighbouring
characters (in the original text) are not `*`.  `prev` is the character
preceding the current position in the original text. -/
def removeLoneStars : Option Char → List Char → List Char
  | _, [] => []
  | prev, c :: rest =>
    if c == '*' && prev != some '*' && rest.head? != some '*' then
      removeLoneStars (some c) rest
    else
      c :: removeLoneStars (some c) rest

/-- Scanner state for `re.sub(r'#{1,6}\s*', '', text)`:
`normal` = outside a match; `hashes k` = inside the `#{1,6}` part with `k`
further `#` allowed in the current match; `spaces` = inside the `\s*` part. -/
inductive HashMode where
  | normal
  | hashes (left : Nat)
  | spaces

/-- Left-to-right scan implementing `re.sub(r'#{1,6}\s*', '', text)`:
each match consumes one to six `#` and then all following whitespace; a
seventh consecutive `#` starts a new match. -/
def stripHashesGo : HashMode → List Char → List Char
  | _, [] => []
  | .normal, c :: rest =>
    if c == '#' then stripHashesGo (.hashes 5) rest
    else c :: stripHashesGo .normal rest
  | .hashes k, c :: rest =>
    if c == '#' then stripHashesGo (.hashes (if k == 0 then 5 else k - 1)) rest
    else if isPySpace c then stripHashesGo .spaces rest
    else c :: stripHashesGo .normal rest
  | .spaces, c :: rest =>
    if c == '#' then stripHashesGo (.hashes 5) rest
    else if isPySpace c then stripHashesGo .spaces rest
    else c :: stripHashesGo .normal rest

def stripHashes (l : List Char) : List Char := stripHashesGo .normal l

/-- One match attempt of `re.sub(r'\[([^\]]+)\]\([^\)]+\)', r'\1', text)` at a
position just after a `[`: a nonempty run of non-`]`, then `](`, a nonempty
run of non-`)`, then `)`.  Returns the link label and the rest of the input
after the match. -/
def parseLink (l : List Char) : Option (List Char × List Char) :=
  let lab := l.takeWhile (fun c => c != ']')
  let r1 := l.dropWhile (fun c => c != ']')
  if lab.isEmpty then none
  else
    match r1 with
    | ']' :: '(' :: r2 =>
      let url := r2.takeWhile (fun c => c != ')')
      let r3 := r2.dropWhile (fun c => c != ')')
      if url.isEmpty then none
      else
        match r3 with
        | ')' :: r4 => some (lab, r4)
        | _ => none
    | _ => none

/-- Left-to-right scan of the link substitution; replacement text is not
rescanned (Python `re.sub` semantics).  `fuel` only forces termination; it is
always called with `fuel ≥ length` and each step consumes at least one
character, so the `0` case is never reached from `subLinks`. -/
def subLinksGo : Nat → List Char → List Char
  | 0, l => l
  | _ + 1, [] => []
  | fuel + 1, c :: rest =>
    if c == '[' then
      match parseLink rest with
      | some (lab, r4) => lab ++ subLinksGo fuel r4
      | none => c :: subLinksGo fuel rest
    else c :: subLinksGo fuel rest

def subLinks (l : List Char) : List Char := subLinksGo l.length l

/-- Python `text.split()`: maximal runs of non-whitespace, with whitespace
(including leading and trailing) discarded.  `fuel` only forces termination;
each produced word consumes at least one character. -/
def pyWordsGo : Nat → List Char → List (List Char)
  | 0, _ => []
  | fuel + 1, l =>
    match l.dropWhile isPySpace with
    | [] => []
    | c :: rest =>
      (c :: rest).takeWhile (fun x => !isPySpace x) ::
        pyWordsGo fuel ((c :: rest).dropWhile (fun x => !isPySpace x))

def pyWords (l : List Char) : List (List Char) := pyWordsGo l.length l

/-- `' '.join(words)`. -/
def joinSpace : List (List Char) → List Char
  | [] => []
  | [w] => w
  | w :: ws => w ++ ' ' :: joinSpace ws

/-- `' '.join(text.split())`. -/
def normalizeWs (l : List Char) : List Char := joinSpace (pyWords l)

/-- The full sanitizer pipeline of `clean_text_for_speech` on character
lists, line by line from `brain.py` lines 35–42.  `'\x60'` is the backtick. -/
def cleanList (l : List Char) : List Char :=
  let l1 := replacePairStars l
  let l2 := removeLoneStars none l1
  let l3 := stripHashes l2
  let l4 := l3.filter (fun c => c != '_')
  let l5 := l4.filter (fun c => c != '\x60')
  let l6 := subLinks l5
  let l7 := normalizeWs l6
  l7.filter allowedChar

/-- `clean_text_for_speech` (`brain.py` lines 33–43). -/
def clean_text_for_speech (text : String) : String :=
  ⟨cleanList text.data⟩

/-! ## The retry/fallback pipeline `think` (`brain.py` lines 79–213) -/

/-- One conversation turn: a Python dict `{"role": r, "parts": [t]}` (the
`parts` list always holds exactly one string in the source). -/
structure Turn where
  role : String
  text : String
deriving DecidableEq, Repr

/-- The Groq model chain (`brain.py` lines 24–28). -/
def MODELS : List String :=
  ["llama-3.1-8b-instant", "llama-3.3-70b-versatile", "llama-3.1-70b-versatile"]

/-- `max_retries = 3` (`brain.py` line 126). -/
def max_retries : Nat := 3

/-- `wait_times = [10, 20, 40]` (`brain.py` line 127). -/
def wait_times : List Nat := [10, 20, 40]

/-- Outcome of one generation attempt: the whole `try` block either reaches
the final `return` (success, with the accumulated streamed text) or raises an
exception `e` (failure, with `str(e)`). -/
inductive GenOutcome where
  | success (text : String)
  | failure (msg : String)

/-- The rate-limit classification of `brain.py` line 192:
`"429" in error_msg or "rate_limit" in error_msg.lower()`. -/
def isRateLimitError (msg : String) : Bool :=
  containsSub msg "429" || containsSub (pyLower msg) "rate_limit"

/-- The fallback reply of `brain.py` line 209. -/
def troubleReply : String :=
  "Sorry, I'm having some trouble right now. Can you try again?"

/-- The terminal reply of `brain.py` line 213. -/
def exhaustedReply : String :=
  "I've used up all available models for today. Quota resets at midnight — let's continue then!"

/-- `brain.py` lines 118–124: append the user turn, then keep only the most
recent 20 turns (`conversation_history[-20:]`). -/
def appendUserEvict (history : List Turn) (user_input : String) : List Turn :=
  let h1 := history ++ [{ role := "user", text := user_input }]
  if 20 < h1.length then h1.drop (h1.length - 20) else h1

/-- The value returned by `think` — the reply string and updated history —
plus the other observable effects of the call: the final value of the global
`current_model_index`, the backoff durations slept (in order), and the
sequence of generation attempts made, each tagged with the model index and
the in-model attempt number it was made at. -/
structure ThinkResult where
  reply : String
  history : List Turn
  modelIndex : Nat
  sleeps : List Nat
  attempts : List (Nat × Nat)
deriving DecidableEq, Repr

/-- The `while current_model_index < len(MODELS)` / `for attempt in
range(max_retries)` loops of `brain.py` lines 129–213.  `client` gives the
outcome of each successive generation attempt (`calls` counts them), `idx` is
`current_model_index`, `attempt` the inner loop counter, `hist0` the history
after the user turn was appended and evicted.  `fuel` is the number of
generation attempts the loops can still make, `(len(MODELS) - idx) *
max_retries - attempt`; it is `0` exactly when `idx` has reached the chain
length, so the `0` case is the `while` loop's exit (lines 211–213). -/
def thinkGo (client : Nat → GenOutcome) : Nat → Nat → Nat → Nat →
    List Turn → List Nat → List (Nat × Nat) → ThinkResult
  | 0, _, idx, _, hist0, sleeps, atts =>
    { reply := exhaustedReply, history := hist0.dropLast, modelIndex := idx
      sleeps := sleeps, attempts := atts }
  | fuel + 1, calls, idx, attempt, hist0, sleeps, atts =>
    match client calls with
    | .success text =>
      let clean_response := clean_text_for_speech text
      { reply := clean_response
        history := hist0 ++ [{ role := "model", text := clean_response }]
        modelIndex := idx, sleeps := sleeps, attempts := atts ++ [(idx, attempt)] }
    | .failure msg =>
      if isRateLimitError msg then
        if attempt < max_retries - 1 then
          thinkGo client fuel (calls + 1) idx (attempt + 1) hist0
            (sleeps ++ [wait_times.getD attempt 0]) (atts ++ [(idx, attempt)])
        else
          thinkGo client fuel (calls + 1) (idx + 1) 0 hist0
            sleeps (atts ++ [(idx, attempt)])
      else
        { reply := troubleReply, history := hist0.dropLast, modelIndex := idx
          sleeps := sleeps, attempts := atts ++ [(idx, attempt)] }

/-- `think(user_input, conversation_history, client)` (`brain.py` lines
79–213), entered with `current_model_index = idx`. -/
def think (client : Nat → GenOutcome) (idx : Nat)
    (conversation_history : List Turn) (user_input : String) : ThinkResult :=
  thinkGo client ((MODELS.length - idx) * max_retries) 0 idx 0
    (appendUserEvict conversation_history user_input) [] []

/-! ## The speech job (`tts.py` lines 18–25, 90–112, 115–158) -/

/-- Observable outcome of `generate_speech_background(text, output_file,
ready_event)` (`tts.py` lines 18–25): whether `ready_event` was set when the
thread finished, and whether the audio artifact was written.  `synth_ok`
tells whether `asyncio.run(_generate_speech(...))` raised. -/
structure SpeechJobOutcome where
  ready_event_set : Bool
  artifact_written : Bool
deriving DecidableEq, Repr

/-- `generate_speech_background` (`tts.py` lines 18–25): on success, save the
file and set the event; on any exception, print and still set the event. -/
def generate_speech_background (synth_ok : Bool) : SpeechJobOutcome :=
  if synth_ok then { ready_event_set := true, artifact_written := true }
  else { ready_event_set := true, artifact_written := false }

/-- What `play_pregenerated` did: played the artifact, or returned without
playing anything. -/
inductive PlayOutcome where
  | noop
  | played (file : String)
deriving DecidableEq, Repr

/-- `play_pregenerated(temp_filename, ready_event)` (`tts.py` lines 115–158).
`start_tts_generation` returns `(None, None)` when it fails (lines 110–112),
modelled as `none`; `fileExists` is `os.path.exists`.  Playback exceptions
are caught and logged (lines 152–158), so the function is total. -/
def play_pregenerated (temp_filename : Option String) (ready_event : Option Unit)
    (fileExists : String → Bool) : PlayOutcome :=
  match temp_filename, ready_event with
  | some f, some _ => if fileExists f then .played f else .noop
  | _, _ => .noop

/-! ## The delivery join (`brain.py` lines 157–180)

The delivery section of `think` — `tts_ready.wait(timeout=10)`, spawning the
`play_pregenerated` thread, `slow_display(clean_response)` on the main
thread, `audio_thread.join()` — is modelled as a two-thread transition
system.  Program counters of the main thread: 0 = about to call
`tts_ready.wait`, 1 = about to start the audio thread, 2 = about to run
`slow_display`, 3 = about to `join`, 4 = returned from the delivery section.
Audio thread: 0 = not started, 1 = running, 2 = finished. -/

structure DeliverState where
  mainPC : Nat
  audioPC : Nat
deriving DecidableEq, Repr

/-- Interleaved small steps of the delivery section.  `ready_in_time` is the
result of `tts_ready.wait(timeout=10)`; the source discards it, so every
transition is available for either value — in particular the main thread
proceeds to the display even when the wait timed out. -/
inductive DeliverStep (ready_in_time : Bool) : DeliverState → DeliverState → Prop
  | wait_ready (a : Nat) : DeliverStep ready_in_time ⟨0, a⟩ ⟨1, a⟩
  | spawn_audio : DeliverStep ready_in_time ⟨1, 0⟩ ⟨2, 1⟩
  | display_done (a : Nat) : DeliverStep ready_in_time ⟨2, a⟩ ⟨3, a⟩
  | audio_finish (m : Nat) : DeliverStep ready_in_time ⟨m, 1⟩ ⟨m, 2⟩
  | join_audio : DeliverStep ready_in_time ⟨3, 2⟩ ⟨4, 2⟩

/-! ### Structural lemmas about the sanitizer stages -/

theorem replacePairStars_sublist : ∀ l : List Char, List.Sublist (replacePairStars l) l
  | [] => by simp [replacePairStars]
  | [c] => by simp [replacePairStars]
  | c :: d :: rest => by
    rw [replacePairStars]
    split
    · exact ((replacePairStars_sublist rest).cons d).cons c
    · exact (replacePairStars_sublist (d :: rest)).cons₂ c

theorem replacePairStars_eq_self : ∀ {l : List Char}, '*' ∉ l → replacePairStars l = l
  | [], _ => rfl
  | [c], _ => rfl
  | c :: d :: rest, h => by
    have hc : c ≠ '*' := fun hc => h (hc ▸ List.mem_cons_self c (d :: rest))
    rw [replacePairStars, if_neg (by simp [hc]),
      replacePairStars_eq_self (fun hm => h (List.mem_cons_of_mem c hm))]

theorem head?_replacePairStars_cons {d : Char} (rest : List Char) (hd : d ≠ '*') :
    (replacePairStars (d :: rest)).head? = some d := by
  cases rest with
  | nil => rfl
  | cons e rest' => rw [replacePairStars, if_neg (by simp [hd])]; rfl

/-- No two adjacent characters of `text.replace('**', '')` are both `*`. -/
theorem chain'_replacePairStars :
    ∀ l : List Char, List.Chain' (fun a b => ¬(a = '*' ∧ b = '*')) (replacePairStars l)
  | [] => by simp [replacePairStars]
  | [c] => by simp [replacePairStars]
  | c :: d :: rest => by
    rw [replacePairStars]
    split
    · exact chain'_replacePairStars rest
    · rename_i hcd
      rw [List.chain'_cons']
      refine ⟨?_, chain'_replacePairStars (d :: rest)⟩
      intro y hy
      by_cases hd : d = '*'
      · have hc : ¬ c = '*' := by
          intro hc; exact absurd (by simp [hc, hd]) hcd
        exact fun hp => hc hp.1
      · rw [head?_replacePairStars_cons rest hd] at hy
        cases hy
        exact fun hp => hd hp.2

theorem removeLoneStars_sublist : ∀ (p : Option Char) (l : List Char),
    List.Sublist (removeLoneStars p l) l
  | _, [] => by simp [removeLoneStars]
  | p, c :: rest => by
    rw [removeLoneStars]
    split
    · exact (removeLoneStars_sublist (some c) rest).cons c
    · exact (removeLoneStars_sublist (some c) rest).cons₂ c

theorem removeLoneStars_eq_self : ∀ (p : Option Char) {l : List Char},
    '*' ∉ l → removeLoneStars p l = l
  | _, [], _ => rfl
  | p, c :: rest, h => by
    have hc : c ≠ '*' := fun hc => h (hc ▸ List.mem_cons_self c rest)
    rw [removeLoneStars, if_neg (by simp [hc]),
      removeLoneStars_eq_self (some c) (fun hm => h (List.mem_cons_of_mem c hm))]

/-- On a text with no two adjacent `*` (and whose first character, if a `*`,
is not preceded by a `*`), the lone-star pass removes every `*`. -/
theorem star_not_mem_removeLoneStars :
    ∀ (p : Option Char) (l : List Char),
      List.Chain' (fun a b => ¬(a = '*' ∧ b = '*')) l →
      (l.head? = some '*' → p ≠ some '*') →
      '*' ∉ removeLoneStars p l
  | _, [], _, _ => by simp [removeLoneStars]
  | p, c :: rest, hch, hp => by
    rw [List.chain'_cons'] at hch
    rw [removeLoneStars]
    split
    · exact star_not_mem_removeLoneStars (some c) rest hch.2 (by
        intro hh hcs
        rcases rest with _ | ⟨e, rest'⟩
        · simp at hh
        · simp only [List.head?_cons, Option.some.injEq] at hh
          injection hcs with hcs
          exact hch.1 e rfl ⟨hcs, hh⟩)
    · rename_i hcond
      intro hmem
      rcases List.mem_cons.1 hmem with hc | hrest
      · -- the kept character `c` would have to be a star with a star neighbour
        rw [← hc] at hcond hp hch
        simp only [beq_self_eq_true, Bool.true_and, Bool.and_eq_true, bne_iff_ne,
          ne_eq, Bool.not_eq_true] at hcond
        rcases Decidable.not_and_iff_or_not.1 hcond with hprev | hnext
        · exact hp rfl (by
            rcases p with _ | q
            · simp at hprev
            · simp only [Option.some.injEq]
              have : q = '*' := by
                by_contra hq
                exact hprev (by simp [hq])
              rw [this])
        · rcases rest with _ | ⟨e, rest'⟩
          · simp at hnext
          · simp only [List.head?_cons] at hnext
            have he : e = '*' := by
              by_contra hq
              exact hnext (by simp [hq])
            exact hch.1 e rfl ⟨rfl, he⟩
      · exact star_not_mem_removeLoneStars (some c) rest hch.2 (by
          intro hh hcs
          injection hcs with hcs
          rcases rest with _ | ⟨e, rest'⟩
          · simp at hh
          · simp only [List.head?_cons, Option.some.injEq] at hh
            exact hch.1 e rfl ⟨hcs, hh⟩) hrest

/-- After the first two stages no `*` remains. -/
theorem star_not_mem_two_stages (l : List Char) :
    '*' ∉ removeLoneStars none (replacePairStars l) :=
  star_not_mem_removeLoneStars none (replacePairStars l) (chain'_replacePairStars l)
    (fun _ => by simp)

theorem stripHashesGo_sublist : ∀ (m : HashMode) (l : List Char),
    List.Sublist (stripHashesGo m l) l
  | _, [] => by cases ‹HashMode› <;> simp [stripHashesGo]
  | .normal, c :: rest => by
    rw [stripHashesGo]
    split
    · exact (stripHashesGo_sublist _ rest).cons c
    · exact (stripHashesGo_sublist _ rest).cons₂ c
  | .hashes k, c :: rest => by
    rw [stripHashesGo]
    split
    · exact (stripHashesGo_sublist _ rest).cons c
    · split
      · exact (stripHashesGo_sublist _ rest).cons c
      · exact (stripHashesGo_sublist _ rest).cons₂ c
  | .spaces, c :: rest => by
    rw [stripHashesGo]
    split
    · exact (stripHashesGo_sublist _ rest).cons c
    · split
      · exact (stripHashesGo_sublist _ rest).cons c
      · exact (stripHashesGo_sublist _ rest).cons₂ c

theorem hash_not_mem_stripHashesGo : ∀ (m : HashMode) (l : List Char),
    '#' ∉ stripHashesGo m l
  | m, [] => by cases m <;> simp [stripHashesGo]
  | .normal, c :: rest => by
    rw [stripHashesGo]
    split
    · exact hash_not_mem_stripHashesGo _ rest
    · rename_i hc
      intro hmem
      rcases List.mem_cons.1 hmem with h | h
      · exact hc (by simp [← h])
      · exact hash_not_mem_stripHashesGo _ rest h
  | .hashes k, c :: rest => by
    rw [stripHashesGo]
    split
    · exact hash_not_mem_stripHashesGo _ rest
    · split
      · exact hash_not_mem_stripHashesGo _ rest
      · rename_i hc _
        intro hmem
        rcases List.mem_cons.1 hmem with h | h
        · exact hc (by simp [← h])
        · exact hash_not_mem_stripHashesGo _ rest h
  | .spaces, c :: rest => by
    rw [stripHashesGo]
    split
    · exact hash_not_mem_stripHashesGo _ rest
    · split
      · exact hash_not_mem_stripHashesGo _ rest
      · rename_i hc _
        intro hmem
        rcases List.mem_cons.1 hmem with h | h
        · exact hc (by simp [← h])
        · exact hash_not_mem_stripHashesGo _ rest h

theorem stripHashesGo_eq_self : ∀ {l : List Char}, '#' ∉ l → stripHashesGo .normal l = l
  | [], _ => rfl
  | c :: rest, h => by
    have hc : c ≠ '#' := fun hc => h (hc ▸ List.mem_cons_self c rest)
    rw [stripHashesGo, if_neg (by simp [hc]),
      stripHashesGo_eq_self (fun hm => h (List.mem_cons_of_mem c hm))]

theorem parseLink_mem {l lab r4 : List Char} (h : parseLink l = some (lab, r4)) :
    (∀ c ∈ lab, c ∈ l) ∧ (∀ c ∈ r4, c ∈ l) := by
  simp only [parseLink] at h
  split at h
  · exact absurd h (by simp)
  · split at h
    · rename_i r2 heq1
      split at h
      · exact absurd h (by simp)
      · split at h
        · rename_i r4' heq2
          rw [Option.some.injEq, Prod.mk.injEq] at h
          obtain ⟨hlab, hr4⟩ := h
          constructor
          · intro c hc
            rw [← hlab] at hc
            exact (List.takeWhile_sublist _).subset hc
          · intro c hc
            rw [← hr4] at hc
            have h1 : c ∈ r2.dropWhile (fun c => c != ')') := by
              rw [heq2]; exact List.mem_cons_of_mem _ hc
            have h2 : c ∈ r2 := (List.dropWhile_sublist _).subset h1
            have h3 : c ∈ l.dropWhile (fun c => c != ']') := by
              rw [heq1]
              exact List.mem_cons_of_mem _ (List.mem_cons_of_mem _ h2)
            exact (List.dropWhile_sublist _).subset h3
        · exact absurd h (by simp)
    · exact absurd h (by simp)

theorem subLinksGo_mem : ∀ (fuel : Nat) (l : List Char) (c : Char),
    c ∈ subLinksGo fuel l → c ∈ l
  | 0, l, c => fun h => h
  | _ + 1, [], c => fun h => absurd h (by simp [subLinksGo])
  | fuel + 1, b :: rest, c => by
    rw [subLinksGo]
    split
    · split
      · rename_i heq
        intro hmem
        rcases List.mem_append.1 hmem with hlab | hrec
        · exact List.mem_cons_of_mem _ ((parseLink_mem heq).1 c hlab)
        · exact List.mem_cons_of_mem _
            ((parseLink_mem heq).2 c (subLinksGo_mem fuel _ c hrec))
      · intro hmem
        rcases List.mem_cons.1 hmem with hc | hrec
        · exact hc ▸ List.mem_cons_self b rest
        · exact List.mem_cons_of_mem _ (subLinksGo_mem fuel rest c hrec)
    · intro hmem
      rcases List.mem_cons.1 hmem with hc | hrec
      · exact hc ▸ List.mem_cons_self b rest
      · exact List.mem_cons_of_mem _ (subLinksGo_mem fuel rest c hrec)

theorem subLinksGo_eq_self : ∀ (fuel : Nat) {l : List Char},
    '[' ∉ l → subLinksGo fuel l = l
  | 0, _, _ => rfl
  | _ + 1, [], _ => rfl
  | fuel + 1, b :: rest, h => by
    have hb : b ≠ '[' := fun hb => h (hb ▸ List.mem_cons_self b rest)
    rw [subLinksGo, if_neg (by simp [hb]),
      subLinksGo_eq_self fuel (fun hm => h (List.mem_cons_of_mem b hm))]

theorem pyWordsGo_nil : ∀ fuel : Nat, pyWordsGo fuel [] = []
  | 0 => rfl
  | _ + 1 => rfl

theorem pyWordsGo_succ_of_dropWhile {l : List Char} {c : Char} {rest : List Char}
    (h : l.dropWhile isPySpace = c :: rest) (f : Nat) :
    pyWordsGo (f + 1) l =
      (c :: rest).takeWhile (fun x => !isPySpace x) ::
        pyWordsGo f ((c :: rest).dropWhile (fun x => !isPySpace x)) := by
  rw [pyWordsGo, h]

theorem pyWordsGo_succ_of_dropWhile_nil {l : List Char}
    (h : l.dropWhile isPySpace = []) (f : Nat) : pyWordsGo (f + 1) l = [] := by
  rw [pyWordsGo, h]

/-- Every word produced by `text.split()` is nonempty and whitespace-free. -/
theorem pyWordsGo_words : ∀ (fuel : Nat) (l : List Char) (w : List Char),
    w ∈ pyWordsGo fuel l → w ≠ [] ∧ ∀ c ∈ w, isPySpace c = false := by
  intro fuel
  induction fuel with
  | zero => intro l w h; exact absurd h (by simp [pyWordsGo])
  | succ fuel ih =>
    intro l w h
    rcases hdrop : l.dropWhile isPySpace with _ | ⟨c, rest⟩
    · rw [pyWordsGo_succ_of_dropWhile_nil hdrop] at h
      exact absurd h (by simp)
    · rw [pyWordsGo_succ_of_dropWhile hdrop] at h
      have hc : isPySpace c = false := by
        have h' := List.head?_dropWhile_not isPySpace l
        rw [hdrop] at h'
        simpa using h'
      rcases List.mem_cons.1 h with hw | hrec
      · subst hw
        rw [List.takeWhile_cons_of_pos (by simp [hc])]
        refine ⟨by simp, ?_⟩
        intro x hx
        rcases List.mem_cons.1 hx with hx | hx
        · rw [hx]; exact hc
        · have := List.mem_takeWhile_imp hx
          simpa using this
      · exact ih _ w hrec

theorem pyWordsGo_mem : ∀ (fuel : Nat) (l w : List Char) (c : Char),
    w ∈ pyWordsGo fuel l → c ∈ w → c ∈ l := by
  intro fuel
  induction fuel with
  | zero => intro l w c h; exact absurd h (by simp [pyWordsGo])
  | succ fuel ih =>
    intro l w c h hc
    rcases hdrop : l.dropWhile isPySpace with _ | ⟨b, rest⟩
    · rw [pyWordsGo_succ_of_dropWhile_nil hdrop] at h
      exact absurd h (by simp)
    · rw [pyWordsGo_succ_of_dropWhile hdrop] at h
      have hsub : ∀ x, x ∈ b :: rest → x ∈ l := by
        intro x hx
        exact (List.dropWhile_sublist isPySpace).subset (hdrop ▸ hx)
      rcases List.mem_cons.1 h with hw | hrec
      · exact hsub c ((List.takeWhile_sublist _).subset (hw ▸ hc))
      · exact hsub c ((List.dropWhile_sublist _).subset (ih _ w c hrec hc))

theorem joinSpace_mem : ∀ (ws : List (List Char)) (c : Char),
    c ∈ joinSpace ws → (∃ w ∈ ws, c ∈ w) ∨ c = ' '
  | [], c => fun h => absurd h (by simp [joinSpace])
  | [w], c => fun h => Or.inl ⟨w, by simp, h⟩
  | w :: w' :: ws, c => fun h => by
    have h' : c ∈ w ++ ' ' :: joinSpace (w' :: ws) := h
    rcases List.mem_append.1 h' with hw | hrest
    · exact Or.inl ⟨w, by simp, hw⟩
    · rcases List.mem_cons.1 hrest with hsp | hrec
      · exact Or.inr hsp
      · rcases joinSpace_mem (w' :: ws) c hrec with ⟨u, hu, hcu⟩ | hsp
        · exact Or.inl ⟨u, List.mem_cons_of_mem _ hu, hcu⟩
        · exact Or.inr hsp

theorem normalizeWs_mem {l : List Char} {c : Char} (h : c ∈ normalizeWs l) :
    c ∈ l ∨ c = ' ' := by
  rcases joinSpace_mem _ c h with ⟨w, hw, hcw⟩ | hsp
  · exact Or.inl (pyWordsGo_mem _ _ w c hw hcw)
  · exact Or.inr hsp

/-- `text.split()` recovers the word list from a `' '`-join of nonempty,
whitespace-free words, even with extra leading whitespace `sp`. -/
theorem pyWordsGo_joinSpace :
    ∀ (ws : List (List Char)) (fuel : Nat) (sp : List Char),
      (∀ c ∈ sp, isPySpace c = true) →
      (∀ w ∈ ws, w ≠ [] ∧ ∀ c ∈ w, isPySpace c = false) →
      (sp ++ joinSpace ws).length ≤ fuel →
      pyWordsGo fuel (sp ++ joinSpace ws) = ws := by
  intro ws
  induction ws with
  | nil =>
    intro fuel sp hsp _ _
    rcases fuel with _ | fuel
    · rfl
    · refine pyWordsGo_succ_of_dropWhile_nil ?_ fuel
      have hJ : joinSpace ([] : List (List Char)) = [] := rfl
      rw [hJ, List.append_nil]
      exact List.dropWhile_eq_nil_iff.2 (by intro x hx; simpa using hsp x hx)
  | cons w ws' ih =>
    intro fuel sp hsp hws hfuel
    obtain ⟨hwne, hwchars⟩ := hws w (List.mem_cons_self w ws')
    rcases w with _ | ⟨a, t⟩
    · exact absurd rfl hwne
    have ha : isPySpace a = false := hwchars a (List.mem_cons_self a t)
    have ht : ∀ c ∈ t, (fun x => !isPySpace x) c = true := by
      intro c hc; simp [hwchars c (List.mem_cons_of_mem a hc)]
    have hat : ∀ c ∈ a :: t, (fun x => !isPySpace x) c = true := by
      intro c hc; simp [hwchars c hc]
    rcases ws' with _ | ⟨w', rest'⟩
    · -- last word: joinSpace [a :: t] = a :: t
      have hJ : joinSpace [a :: t] = a :: t := rfl
      rw [hJ] at hfuel ⊢
      obtain ⟨f, rfl⟩ : ∃ f, fuel = f + 1 := by
        rcases fuel with _ | f
        · exfalso; simp [List.length_append] at hfuel
        · exact ⟨f, rfl⟩
      have hdropEq : (sp ++ a :: t).dropWhile isPySpace = a :: t := by
        rw [List.dropWhile_append_of_pos (by intro x hx; simpa using hsp x hx)]
        exact List.dropWhile_cons_of_neg (by simp [ha])
      rw [pyWordsGo_succ_of_dropWhile hdropEq, List.takeWhile_eq_self_iff.2 hat,
        List.dropWhile_eq_nil_iff.2 hat, pyWordsGo_nil]
    · -- inner word: joinSpace ((a :: t) :: w' :: rest')
      have hJ : joinSpace ((a :: t) :: w' :: rest') =
          (a :: t) ++ ' ' :: joinSpace (w' :: rest') := rfl
      rw [hJ] at hfuel ⊢
      obtain ⟨f, rfl⟩ : ∃ f, fuel = f + 1 := by
        rcases fuel with _ | f
        · exfalso; simp [List.length_append] at hfuel
        · exact ⟨f, rfl⟩
      have hdropEq : (sp ++ ((a :: t) ++ ' ' :: joinSpace (w' :: rest'))).dropWhile
          isPySpace = a :: (t ++ ' ' :: joinSpace (w' :: rest')) := by
        rw [List.dropWhile_append_of_pos (by intro x hx; simpa using hsp x hx),
          List.cons_append]
        exact List.dropWhile_cons_of_neg (by simp [ha])
      rw [pyWordsGo_succ_of_dropWhile hdropEq]
      have htake : (a :: (t ++ ' ' :: joinSpace (w' :: rest'))).takeWhile
          (fun x => !isPySpace x) = a :: t := by
        rw [List.takeWhile_cons_of_pos (by simp [ha]),
          List.takeWhile_append_of_pos ht,
          List.takeWhile_cons_of_neg (by simp [isPySpace]), List.append_nil]
      have hdrop2 : (a :: (t ++ ' ' :: joinSpace (w' :: rest'))).dropWhile
          (fun x => !isPySpace x) = ' ' :: joinSpace (w' :: rest') := by
        rw [List.dropWhile_cons_of_pos (by simp [ha]),
          List.dropWhile_append_of_pos ht,
          List.dropWhile_cons_of_neg (by simp [isPySpace])]
      rw [htake, hdrop2]
      have hrec : pyWordsGo f (' ' :: joinSpace (w' :: rest')) = w' :: rest' := by
        have := ih f [' '] (by intro c hc; simp at hc; simp [hc, isPySpace])
          (fun u hu => hws u (List.mem_cons_of_mem _ hu))
          (by
            simp only [List.length_append, List.length_cons,
              List.singleton_append] at hfuel ⊢
            omega)
        simpa using this
      rw [hrec]

/-- `' '.join(text.split())` is idempotent. -/
theorem normalizeWs_idem (l : List Char) : normalizeWs (normalizeWs l) = normalizeWs l := by
  show joinSpace (pyWords (joinSpace (pyWords l))) = joinSpace (pyWords l)
  have h : pyWords (joinSpace (pyWords l)) = pyWords l := by
    show pyWordsGo (joinSpace (pyWords l)).length (joinSpace (pyWords l)) = pyWords l
    have := pyWordsGo_joinSpace (pyWords l) (joinSpace (pyWords l)).length []
      (by simp) (fun w hw => pyWordsGo_words _ _ w hw) (by simp)
    simpa using this
  rw [h]

/-! ### Character-level facts about the full sanitizer -/

theorem cleanList_all_allowed (l : List Char) :
    ∀ c ∈ cleanList l, allowedChar c = true := by
  intro c h
  simp only [cleanList] at h
  exact (List.mem_filter.1 h).2

theorem star_not_mem_cleanList (l : List Char) : '*' ∉ cleanList l := by
  intro h
  simp only [cleanList] at h
  have h7 := (List.mem_filter.1 h).1
  rcases normalizeWs_mem h7 with h6 | hsp
  · have h5 := subLinksGo_mem _ _ _ h6
    have h4 := (List.mem_filter.1 h5).1
    have h3 := (List.mem_filter.1 h4).1
    have h2 := (stripHashesGo_sublist _ _).subset h3
    exact star_not_mem_two_stages l h2
  · exact absurd hsp (by decide)

theorem hash_not_mem_cleanList (l : List Char) : '#' ∉ cleanList l := by
  intro h
  simp only [cleanList] at h
  have h7 := (List.mem_filter.1 h).1
  rcases normalizeWs_mem h7 with h6 | hsp
  · have h5 := subLinksGo_mem _ _ _ h6
    have h4 := (List.mem_filter.1 h5).1
    have h3 := (List.mem_filter.1 h4).1
    exact hash_not_mem_stripHashesGo _ _ h3
  · exact absurd hsp (by decide)

theorem underscore_not_mem_cleanList (l : List Char) : '_' ∉ cleanList l := by
  intro h
  simp only [cleanList] at h
  have h7 := (List.mem_filter.1 h).1
  rcases normalizeWs_mem h7 with h6 | hsp
  · have h5 := subLinksGo_mem _ _ _ h6
    have h4 := (List.mem_filter.1 h5).1
    have := (List.mem_filter.1 h4).2
    exact absurd this (by decide)
  · exact absurd hsp (by decide)

theorem stripHashes_eq_self {l : List Char} (h : '#' ∉ l) : stripHashes l = l :=
  stripHashesGo_eq_self h

theorem subLinks_eq_self {l : List Char} (h : '[' ∉ l) : subLinks l = l :=
  subLinksGo_eq_self _ h

/-- On text already free of markdown markers and disallowed characters, the
sanitizer only re-collapses whitespace. -/
theorem cleanList_of_sanitized {m : List Char}
    (hstar : '*' ∉ m) (hhash : '#' ∉ m) (hund : '_' ∉ m)
    (hall : ∀ c ∈ m, allowedChar c = true) :
    cleanList m = normalizeWs m := by
  have hbt : ∀ c ∈ m, (c != '\x60') = true := by
    intro c hc
    have hc' := hall c hc
    simp only [bne_iff_ne, ne_eq]
    intro hceq
    rw [hceq] at hc'
    exact absurd hc' (by decide)
  have hund' : ∀ c ∈ m, (c != '_') = true := by
    intro c hc
    simp only [bne_iff_ne, ne_eq]
    intro hceq
    exact hund (hceq ▸ hc)
  have hbracket : '[' ∉ m := by
    intro h
    exact absurd (hall _ h) (by decide)
  have hnorm : ∀ c ∈ normalizeWs m, allowedChar c = true := by
    intro c hc
    rcases normalizeWs_mem hc with hm | hsp
    · exact hall c hm
    · rw [hsp]; decide
  simp only [cleanList]
  rw [replacePairStars_eq_self hstar, removeLoneStars_eq_self none hstar,
    stripHashes_eq_self hhash, List.filter_eq_self.2 hund',
    List.filter_eq_self.2 hbt, subLinks_eq_self hbracket,
    List.filter_eq_self.2 hnorm]

/-- A second sanitizer pass only re-collapses the whitespace gaps left by the
final character strip of the first pass. -/
theorem cleanList_cleanList (l : List Char) :
    cleanList (cleanList l) = normalizeWs (cleanList l) :=
  cleanList_of_sanitized (star_not_mem_cleanList l) (hash_not_mem_cleanList l)
    (underscore_not_mem_cleanList l) (cleanList_all_allowed l)

/-- From the second application on, the sanitizer is stable. -/
theorem cleanList_three (l : List Char) :
    cleanList (cleanList (cleanList l)) = cleanList (cleanList l) := by
  rw [cleanList_cleanList l]
  have hstar : '*' ∉ normalizeWs (cleanList l) := by
    intro h
    rcases normalizeWs_mem h with hm | hsp
    · exact star_not_mem_cleanList l hm
    · exact absurd hsp (by decide)
  have hhash : '#' ∉ normalizeWs (cleanList l) := by
    intro h
    rcases normalizeWs_mem h with hm | hsp
    · exact hash_not_mem_cleanList l hm
    · exact absurd hsp (by decide)
  have hund : '_' ∉ normalizeWs (cleanList l) := by
    intro h
    rcases normalizeWs_mem h with hm | hsp
    · exact underscore_not_mem_cleanList l hm
    · exact absurd hsp (by decide)
  have hall : ∀ c ∈ normalizeWs (cleanList l), allowedChar c = true := by
    intro c hc
    rcases normalizeWs_mem hc with hm | hsp
    · exact cleanList_all_allowed l c hm
    · rw [hsp]; decide
  rw [cleanList_of_sanitized hstar hhash hund hall, normalizeWs_idem]

/-! ## Claims C5 and C6: sanitizer properties -/

/-- C5 (counterexample): the sanitizer is *not* idempotent.  On `"a ; b"` the
final character strip deletes the `;` between two spaces, leaving a double
space that only a second pass collapses. -/
theorem c5_sanitize_not_idempotent :
    clean_text_for_speech (clean_text_for_speech "a ; b") ≠
      clean_text_for_speech "a ; b" := by
  have h1 : clean_text_for_speech "a ; b" = "a  b" := by decide
  rw [h1]
  decide

/-- C5 (amended): the sanitizer is idempotent from the second application on:
one extra pass only re-collapses whitespace gaps left by the final character
strip, after which the result is a fixed point. -/
theorem clean_text_for_speech_data (t : String) :
    (clean_text_for_speech t).data = cleanList t.data := rfl

theorem c5_sanitize_idempotent_from_second_pass (x : String) :
    clean_text_for_speech (clean_text_for_speech (clean_text_for_speech x)) =
      clean_text_for_speech (clean_text_for_speech x) := by
  apply String.ext
  simp only [clean_text_for_speech_data]
  exact cleanList_three x.data

/-- C6: every character surviving `clean_text_for_speech` is in the allow-list
of the final strip `re.sub(r'[^\w\s,.!?\'"-:]', '', text)`: word characters,
whitespace, the listed punctuation and the `"`–`:` code-point range. -/
theorem c6_sanitize_allowlist (t : String) :
    (clean_text_for_speech t).data.all allowedChar = true := by
  rw [List.all_eq_true]
  intro c hc
  exact cleanList_all_allowed t.data c hc

/-! ## Unfolding lemmas for the `think` loop -/

theorem thinkGo_zero (client : Nat → GenOutcome) (calls idx attempt : Nat)
    (hist0 : List Turn) (sleeps : List Nat) (atts : List (Nat × Nat)) :
    thinkGo client 0 calls idx attempt hist0 sleeps atts =
      { reply := exhaustedReply, history := hist0.dropLast, modelIndex := idx
        sleeps := sleeps, attempts := atts } := rfl

theorem thinkGo_succ_success {client : Nat → GenOutcome} {calls : Nat} {text : String}
    (h : client calls = GenOutcome.success text) (fuel idx attempt : Nat)
    (hist0 : List Turn) (sleeps : List Nat) (atts : List (Nat × Nat)) :
    thinkGo client (fuel + 1) calls idx attempt hist0 sleeps atts =
      { reply := clean_text_for_speech text
        history := hist0 ++ [{ role := "model", text := clean_text_for_speech text }]
        modelIndex := idx, sleeps := sleeps, attempts := atts ++ [(idx, attempt)] } := by
  rw [thinkGo, h]

theorem thinkGo_succ_rl_retry {client : Nat → GenOutcome} {calls : Nat} {msg : String}
    (h : client calls = GenOutcome.failure msg) (hrl : isRateLimitError msg = true)
    {attempt : Nat} (hatt : attempt < max_retries - 1) (fuel idx : Nat)
    (hist0 : List Turn) (sleeps : List Nat) (atts : List (Nat × Nat)) :
    thinkGo client (fuel + 1) calls idx attempt hist0 sleeps atts =
      thinkGo client fuel (calls + 1) idx (attempt + 1) hist0
        (sleeps ++ [wait_times.getD attempt 0]) (atts ++ [(idx, attempt)]) := by
  rw [thinkGo, h]
  simp [hrl, hatt]

theorem thinkGo_succ_rl_advance {client : Nat → GenOutcome} {calls : Nat} {msg : String}
    (h : client calls = GenOutcome.failure msg) (hrl : isRateLimitError msg = true)
    {attempt : Nat} (hatt : ¬ attempt < max_retries - 1) (fuel idx : Nat)
    (hist0 : List Turn) (sleeps : List Nat) (atts : List (Nat × Nat)) :
    thinkGo client (fuel + 1) calls idx attempt hist0 sleeps atts =
      thinkGo client fuel (calls + 1) (idx + 1) 0 hist0 sleeps (atts ++ [(idx, attempt)]) := by
  rw [thinkGo, h]
  simp [hrl, hatt]

theorem thinkGo_succ_abort {client : Nat → GenOutcome} {calls : Nat} {msg : String}
    (h : client calls = GenOutcome.failure msg) (hrl : isRateLimitError msg = false)
    (fuel idx attempt : Nat)
    (hist0 : List Turn) (sleeps : List Nat) (atts : List (Nat × Nat)) :
    thinkGo client (fuel + 1) calls idx attempt hist0 sleeps atts =
      { reply := troubleReply, history := hist0.dropLast, modelIndex := idx
        sleeps := sleeps, attempts := atts ++ [(idx, attempt)] } := by
  rw [thinkGo, h]
  simp [hrl]

theorem think_eq (client : Nat → GenOutcome) (idx : Nat) (history : List Turn)
    (u : String) :
    think client idx history u =
      thinkGo client ((MODELS.length - idx) * max_retries) 0 idx 0
        (appendUserEvict history u) [] [] := rfl

/-- One whole per-endpoint block of the loop: three rate-limited attempts,
two backoff sleeps, then the cursor advances. -/
theorem thinkGo_rl_block {client : Nat → GenOutcome} {calls : Nat}
    {m0 m1 m2 : String}
    (h0 : client calls = GenOutcome.failure m0) (hr0 : isRateLimitError m0 = true)
    (h1 : client (calls + 1) = GenOutcome.failure m1) (hr1 : isRateLimitError m1 = true)
    (h2 : client (calls + 2) = GenOutcome.failure m2) (hr2 : isRateLimitError m2 = true)
    (fuel idx : Nat) (hist0 : List Turn) (sleeps : List Nat) (atts : List (Nat × Nat)) :
    thinkGo client (fuel + 3) calls idx 0 hist0 sleeps atts =
      thinkGo client fuel (calls + 3) (idx + 1) 0 hist0
        (sleeps ++ [10, 20]) (atts ++ [(idx, 0), (idx, 1), (idx, 2)]) := by
  have e3 : fuel + 3 = (fuel + 2) + 1 := rfl
  rw [e3, thinkGo_succ_rl_retry h0 hr0 (by decide)]
  have e2 : fuel + 2 = (fuel + 1) + 1 := rfl
  rw [e2, thinkGo_succ_rl_retry h1 hr1 (by decide)]
  rw [thinkGo_succ_rl_advance h2 hr2 (by decide)]
  simp [wait_times]

/-! ## Structural lemmas about `think` -/

/-- `current_model_index` never decreases during the loop. -/
theorem thinkGo_modelIndex_mono (client : Nat → GenOutcome) :
    ∀ (fuel calls idx attempt : Nat) (hist0 : List Turn) (sleeps : List Nat)
      (atts : List (Nat × Nat)),
      idx ≤ (thinkGo client fuel calls idx attempt hist0 sleeps atts).modelIndex := by
  intro fuel
  induction fuel with
  | zero => intro calls idx attempt hist0 sleeps atts; rw [thinkGo_zero]
  | succ fuel ih =>
    intro calls idx attempt hist0 sleeps atts
    rcases hcl : client calls with text | msg
    · rw [thinkGo_succ_success hcl]
    · rcases hrl : isRateLimitError msg with _ | _
      · rw [thinkGo_succ_abort hcl hrl]
      · by_cases hatt : attempt < max_retries - 1
        · rw [thinkGo_succ_rl_retry hcl hrl hatt]
          exact ih _ _ _ _ _ _
        · rw [thinkGo_succ_rl_advance hcl hrl hatt]
          exact Nat.le_trans (Nat.le_succ idx) (ih _ _ _ _ _ _)

/-- The history returned by the loop is either the entry history with its last
turn popped (failure paths) or the entry history with the reply appended as a
`"model"` turn (success path). -/
theorem thinkGo_history (client : Nat → GenOutcome) :
    ∀ (fuel calls idx attempt : Nat) (hist0 : List Turn) (sleeps : List Nat)
      (atts : List (Nat × Nat)),
      (thinkGo client fuel calls idx attempt hist0 sleeps atts).history =
          hist0.dropLast ∨
        (thinkGo client fuel calls idx attempt hist0 sleeps atts).history =
          hist0 ++ [Turn.mk "model"
            (thinkGo client fuel calls idx attempt hist0 sleeps atts).reply] := by
  intro fuel
  induction fuel with
  | zero => intro calls idx attempt hist0 sleeps atts; rw [thinkGo_zero]; exact Or.inl rfl
  | succ fuel ih =>
    intro calls idx attempt hist0 sleeps atts
    rcases hcl : client calls with text | msg
    · rw [thinkGo_succ_success hcl]
      exact Or.inr rfl
    · rcases hrl : isRateLimitError msg with _ | _
      · rw [thinkGo_succ_abort hcl hrl]
        exact Or.inl rfl
      · by_cases hatt : attempt < max_retries - 1
        · rw [thinkGo_succ_rl_retry hcl hrl hatt]
          exact ih _ _ _ _ _ _
        · rw [thinkGo_succ_rl_advance hcl hrl hatt]
          exact ih _ _ _ _ _ _

theorem appendUserEvict_length (h : List Turn) (u : String) :
    (appendUserEvict h u).length ≤ 20 := by
  simp only [appendUserEvict]
  split
  · rename_i hlen
    rw [List.length_drop]
    omega
  · rename_i hlen
    omega

theorem appendUserEvict_length_pos (h : List Turn) (u : String) :
    0 < (appendUserEvict h u).length := by
  simp only [appendUserEvict]
  split
  · rename_i hlen
    rw [List.length_drop]
    omega
  · simp

theorem appendUserEvict_ne_nil (h : List Turn) (u : String) :
    appendUserEvict h u ≠ [] :=
  List.length_pos.1 (appendUserEvict_length_pos h u)

theorem appendUserEvict_suffix (h : List Turn) (u : String) :
    appendUserEvict h u <:+ h ++ [{ role := "user", text := u }] := by
  simp only [appendUserEvict]
  split
  · exact List.drop_suffix _ _
  · exact List.suffix_refl _

theorem dropLast_suffix_of_suffix {α : Type} {l m : List α} (h : l <:+ m)
    (hne : l ≠ []) : l.dropLast <:+ m.dropLast := by
  obtain ⟨t, rfl⟩ := h
  rw [List.dropLast_append_of_ne_nil t hne]
  exact ⟨t, rfl⟩

/-- Popping the freshly appended user turn lands back inside the original
history (a suffix of it). -/
theorem appendUserEvict_dropLast_suffix (h : List Turn) (u : String) :
    (appendUserEvict h u).dropLast <:+ h := by
  have hs := dropLast_suffix_of_suffix (appendUserEvict_suffix h u)
    (appendUserEvict_ne_nil h u)
  rwa [List.dropLast_concat] at hs

theorem suffix_append_single {α : Type} {l m : List α} (h : l <:+ m) (a : α) :
    l ++ [a] <:+ m ++ [a] := by
  obtain ⟨t, rfl⟩ := h
  exact ⟨t, (List.append_assoc t l [a]).symm⟩

/-! ## Claims C1–C4, C7, C10: the retry/fallback pipeline -/

/-- C1: when the current endpoint rate-limits on its first `max_retries` = 3
generation attempts and the next attempt succeeds, `think` makes exactly
three attempts on endpoint 0 — i.e. retries it exactly `max_retries - 1` = 2
times — sleeping the strictly increasing backoff `wait_times[0] = 10` and
`wait_times[1] = 20` between them, and moves the cursor only after the third
failure (the fourth attempt is the first one made at cursor 1). -/
theorem c1_retry_schedule (client : Nat → GenOutcome) (m0 m1 m2 t : String)
    (h0 : client 0 = GenOutcome.failure m0) (hr0 : isRateLimitError m0 = true)
    (h1 : client 1 = GenOutcome.failure m1) (hr1 : isRateLimitError m1 = true)
    (h2 : client 2 = GenOutcome.failure m2) (hr2 : isRateLimitError m2 = true)
    (h3 : client 3 = GenOutcome.success t)
    (history : List Turn) (u : String) :
    (think client 0 history u).attempts = [(0, 0), (0, 1), (0, 2), (1, 0)] ∧
      (think client 0 history u).sleeps = [10, 20] ∧
      List.Chain' (fun a b => a < b) (think client 0 history u).sleeps ∧
      (think client 0 history u).modelIndex = 1 := by
  have e : think client 0 history u =
      thinkGo client (6 + 3) 0 0 0 (appendUserEvict history u) [] [] := rfl
  have s1 : thinkGo client (6 + 3) 0 0 0 (appendUserEvict history u) [] [] =
      thinkGo client (5 + 1) 3 1 0 (appendUserEvict history u) [10, 20]
        [(0, 0), (0, 1), (0, 2)] := by
    rw [thinkGo_rl_block h0 hr0 h1 hr1 h2 hr2]
    simp
  have s2 : thinkGo client (5 + 1) 3 1 0 (appendUserEvict history u) [10, 20]
      [(0, 0), (0, 1), (0, 2)] =
      { reply := clean_text_for_speech t
        history := appendUserEvict history u ++
          [Turn.mk "model" (clean_text_for_speech t)]
        modelIndex := 1, sleeps := [10, 20]
        attempts := [(0, 0), (0, 1), (0, 2), (1, 0)] } := by
    rw [thinkGo_succ_success h3]
    simp
  rw [e, s1, s2]
  refine ⟨rfl, rfl, ?_, rfl⟩
  show List.Chain' (fun a b => a < b) [10, 20]
  norm_num [List.chain'_cons]

/-- C2: on a non-rate-limited generation failure, `think` aborts at once: it
returns the local fallback reply, leaves `current_model_index` where it was,
makes no further generation attempt, and pops the user turn it appended, so
a fresh user turn is absent from the returned history. -/
theorem c2_other_error_aborts (client : Nat → GenOutcome) (msg : String)
    (idx : Nat) (history : List Turn) (u : String)
    (hfail : client 0 = GenOutcome.failure msg)
    (hother : isRateLimitError msg = false)
    (hidx : idx < MODELS.length)
    (hfresh : Turn.mk "user" u ∉ history) :
    (think client idx history u).reply = troubleReply ∧
      (think client idx history u).modelIndex = idx ∧
      (think client idx history u).attempts = [(idx, 0)] ∧
      (think client idx history u).history = (appendUserEvict history u).dropLast ∧
      Turn.mk "user" u ∉ (think client idx history u).history := by
  have h3 : MODELS.length = 3 := rfl
  obtain ⟨f, hf⟩ : ∃ f, (MODELS.length - idx) * max_retries = f + 1 := by
    have hidx3 : idx < 3 := h3 ▸ hidx
    have hm : max_retries = 3 := rfl
    rw [h3, hm]
    exact ⟨(3 - idx) * 3 - 1, by omega⟩
  rw [think_eq, hf, thinkGo_succ_abort hfail hother]
  refine ⟨rfl, rfl, by simp, rfl, ?_⟩
  intro hmem
  exact hfresh ((appendUserEvict_dropLast_suffix history u).subset hmem)

/-- C3: when every generation attempt rate-limits, the cursor advances through
the whole chain (0 → 3 = `MODELS.length`, one advance per endpoint after its
three attempts), the appended user turn is popped, and the terminal
all-endpoints-exhausted reply string is returned rather than an exception. -/
theorem c3_chain_exhaustion (client : Nat → GenOutcome) (msgs : Nat → String)
    (hfail : ∀ n, client n = GenOutcome.failure (msgs n))
    (hrl : ∀ n, isRateLimitError (msgs n) = true)
    (history : List Turn) (u : String)
    (hfresh : Turn.mk "user" u ∉ history) :
    (think client 0 history u).modelIndex = MODELS.length ∧
      (think client 0 history u).attempts =
        [(0, 0), (0, 1), (0, 2), (1, 0), (1, 1), (1, 2), (2, 0), (2, 1), (2, 2)] ∧
      (think client 0 history u).reply = exhaustedReply ∧
      (think client 0 history u).history = (appendUserEvict history u).dropLast ∧
      Turn.mk "user" u ∉ (think client 0 history u).history := by
  have e : think client 0 history u =
      thinkGo client (6 + 3) 0 0 0 (appendUserEvict history u) [] [] := rfl
  have s1 : thinkGo client (6 + 3) 0 0 0 (appendUserEvict history u) [] [] =
      thinkGo client (3 + 3) 3 1 0 (appendUserEvict history u) [10, 20]
        [(0, 0), (0, 1), (0, 2)] := by
    rw [thinkGo_rl_block (hfail 0) (hrl 0) (hfail 1) (hrl 1) (hfail 2) (hrl 2)]
    simp
  have s2 : thinkGo client (3 + 3) 3 1 0 (appendUserEvict history u) [10, 20]
      [(0, 0), (0, 1), (0, 2)] =
      thinkGo client (0 + 3) 6 2 0 (appendUserEvict history u) [10, 20, 10, 20]
        [(0, 0), (0, 1), (0, 2), (1, 0), (1, 1), (1, 2)] := by
    rw [thinkGo_rl_block (hfail 3) (hrl 3) (hfail 4) (hrl 4) (hfail 5) (hrl 5)]
    simp
  have s3 : thinkGo client (0 + 3) 6 2 0 (appendUserEvict history u)
      [10, 20, 10, 20] [(0, 0), (0, 1), (0, 2), (1, 0), (1, 1), (1, 2)] =
      thinkGo client 0 9 3 0 (appendUserEvict history u) [10, 20, 10, 20, 10, 20]
        [(0, 0), (0, 1), (0, 2), (1, 0), (1, 1), (1, 2), (2, 0), (2, 1), (2, 2)] := by
    rw [thinkGo_rl_block (hfail 6) (hrl 6) (hfail 7) (hrl 7) (hfail 8) (hrl 8)]
    simp
  rw [e, s1, s2, s3, thinkGo_zero]
  refine ⟨rfl, rfl, rfl, rfl, ?_⟩
  intro hmem
  exact hfresh ((appendUserEvict_dropLast_suffix history u).subset hmem)

/-- C4 (counterexample): with a 20-turn incoming history and an immediately
successful endpoint, the returned history has 21 turns — the eviction runs
only when the user turn is appended, before the assistant turn is added. -/
theorem c4_counterexample :
    ¬ ((think (fun _ => GenOutcome.success "hi") 0
        (List.replicate 20 (Turn.mk "user" "x")) "q").history.length ≤ 20) := by
  decide

/-- C4 (amended): the history returned by `think` has at most 21 turns (at
most 20 at the eviction point, plus the assistant turn appended on success),
and it is a contiguous recent-most slice of the inserted sequence: a suffix
of the original history followed by the user turn and the assistant turn on
the success path, and a suffix of the original history on failure paths
(where the user turn is retracted). -/
theorem c4_history_bound_and_order (client : Nat → GenOutcome) (idx : Nat)
    (history : List Turn) (u : String) :
    (think client idx history u).history.length ≤ 21 ∧
      ((think client idx history u).history <:+
          (history ++ [Turn.mk "user" u] ++
            [Turn.mk "model" (think client idx history u).reply]) ∨
        (think client idx history u).history <:+ history) := by
  rw [think_eq]
  rcases thinkGo_history client ((MODELS.length - idx) * max_retries) 0 idx 0
      (appendUserEvict history u) [] [] with hd | hs
  · rw [hd]
    constructor
    · have h1 := appendUserEvict_length history u
      have h2 := List.length_dropLast (appendUserEvict history u)
      omega
    · exact Or.inr (appendUserEvict_dropLast_suffix history u)
  · rw [hs]
    constructor
    · have h1 := appendUserEvict_length history u
      rw [List.length_append]
      simp only [List.length_cons, List.length_nil]
      omega
    · exact Or.inl (suffix_append_single (appendUserEvict_suffix history u) _)

/-- C7: within a session the cursor is monotone — a call never returns a
smaller `current_model_index` than it started with — and once the cursor has
reached the chain length, a call makes no generation attempt at all and
immediately returns the exhausted-chain reply with the user turn popped. -/
theorem c7_cursor_monotone_and_absorbing (client : Nat → GenOutcome) (idx : Nat)
    (history : List Turn) (u : String) :
    idx ≤ (think client idx history u).modelIndex ∧
      (MODELS.length ≤ idx →
        (think client idx history u).attempts = [] ∧
        (think client idx history u).reply = exhaustedReply ∧
        (think client idx history u).modelIndex = idx ∧
        (think client idx history u).history = (appendUserEvict history u).dropLast) := by
  constructor
  · rw [think_eq]
    exact thinkGo_modelIndex_mono client _ _ _ _ _ _ _
  · intro hle
    have hf : (MODELS.length - idx) * max_retries = 0 := by
      rw [Nat.sub_eq_zero_of_le hle, Nat.zero_mul]
    rw [think_eq, hf, thinkGo_zero]
    exact ⟨rfl, rfl, rfl, rfl⟩

/-- C10: inside `think`, a generation exception `e` takes the rate-limited
path — sleep `wait_times[0]` and retry the same endpoint at attempt 1 — if
and only if `str(e)` contains `"429"` or its lowercase form contains
`"rate_limit"`; any other exception aborts at once with the fallback reply,
the cursor unchanged and no further attempt. -/
theorem c10_error_classification (client : Nat → GenOutcome) (msg : String)
    (idx : Nat) (history : List Turn) (u : String)
    (hfail : client 0 = GenOutcome.failure msg)
    (hidx : idx < MODELS.length) :
    ((containsSub msg "429" || containsSub (pyLower msg) "rate_limit") = true →
      think client idx history u =
        thinkGo client ((MODELS.length - idx) * max_retries - 1) 1 idx 1
          (appendUserEvict history u) [10] [(idx, 0)]) ∧
    ((containsSub msg "429" || containsSub (pyLower msg) "rate_limit") = false →
      think client idx history u =
        { reply := troubleReply
          history := (appendUserEvict history u).dropLast
          modelIndex := idx, sleeps := [], attempts := [(idx, 0)] }) := by
  have h3 : MODELS.length = 3 := rfl
  obtain ⟨f, hf⟩ : ∃ f, (MODELS.length - idx) * max_retries = f + 1 := by
    have hidx3 : idx < 3 := h3 ▸ hidx
    have hm : max_retries = 3 := rfl
    rw [h3, hm]
    exact ⟨(3 - idx) * 3 - 1, by omega⟩
  constructor
  · intro hrl
    rw [think_eq, hf, thinkGo_succ_rl_retry hfail hrl (by decide)]
    have hfe : f = (MODELS.length - idx) * max_retries - 1 := by omega
    rw [hfe]
    simp [wait_times]
  · intro hother
    rw [think_eq, hf, thinkGo_succ_abort hfail hother]
    simp

/-! ## Claims C8 and C9: speech job and delivery join -/

/-- C8: the speech job sets its readiness event even when synthesis raises
(`tts.py` lines 18–25), and `play_pregenerated` silently no-ops when the
artifact handle or event is missing or the artifact file does not exist
(`tts.py` lines 115–131). -/
theorem c8_speech_job_safety (synth_ok : Bool) (f : String) (re : Option Unit)
    (fileExists : String → Bool) :
    (generate_speech_background synth_ok).ready_event_set = true ∧
      play_pregenerated none re fileExists = PlayOutcome.noop ∧
      play_pregenerated (some f) none fileExists = PlayOutcome.noop ∧
      (fileExists f = false →
        play_pregenerated (some f) (some ()) fileExists = PlayOutcome.noop) := by
  refine ⟨?_, ?_, rfl, ?_⟩
  · cases synth_ok <;> rfl
  · cases re <;> rfl
  · intro h
    simp [play_pregenerated, h]

/-- C9: in the delivery section's transition system, every run that reaches
the return point (`mainPC = 4`) has the playback thread finished
(`audioPC = 2`, forced by the `join`) and has executed the display step
(`mainPC = 4` is only reachable through `display_done` and `join_audio`);
and for either outcome of the bounded readiness wait — including a timeout —
a run to the return point exists, so `deliver` still completes the display
and returns. -/
theorem c9_deliver_joins_both (ready_in_time : Bool) :
    (∀ s : DeliverState,
        Relation.ReflTransGen (DeliverStep ready_in_time) ⟨0, 0⟩ s →
        s.mainPC = 4 → s.audioPC = 2) ∧
      Relation.ReflTransGen (DeliverStep ready_in_time) ⟨0, 0⟩ ⟨4, 2⟩ := by
  constructor
  · intro s hreach
    induction hreach with
    | refl => intro h4; exact absurd h4 (by decide)
    | tail hab hstep ih =>
      cases hstep <;> intro h4
      · simp at h4
      · simp at h4
      · simp at h4
      · rfl
      · rfl
  · exact Relation.ReflTransGen.tail
      (Relation.ReflTransGen.tail
        (Relation.ReflTransGen.tail
          (Relation.ReflTransGen.tail
            (Relation.ReflTransGen.single (DeliverStep.wait_ready 0))
            DeliverStep.spawn_audio)
          (DeliverStep.display_done 1))
        (DeliverStep.audio_finish 3))
      DeliverStep.join_audio

/-! ## Witnesses -/

theorem c1_retry_schedule_witness :
    (think (fun n => if n < 3 then GenOutcome.failure "429"
        else GenOutcome.success "ok") 0 [] "hi").attempts =
        [(0, 0), (0, 1), (0, 2), (1, 0)] ∧
      (think (fun n => if n < 3 then GenOutcome.failure "429"
        else GenOutcome.success "ok") 0 [] "hi").sleeps = [10, 20] ∧
      List.Chain' (fun a b => a < b)
        (think (fun n => if n < 3 then GenOutcome.failure "429"
          else GenOutcome.success "ok") 0 [] "hi").sleeps ∧
      (think (fun n => if n < 3 then GenOutcome.failure "429"
        else GenOutcome.success "ok") 0 [] "hi").modelIndex = 1 :=
  c1_retry_schedule _ "429" "429" "429" "ok" rfl (by decide) rfl (by decide)
    rfl (by decide) rfl [] "hi"

theorem c2_other_error_aborts_witness :
    (think (fun _ => GenOutcome.failure "boom") 0 [] "hi").reply = troubleReply ∧
      (think (fun _ => GenOutcome.failure "boom") 0 [] "hi").modelIndex = 0 ∧
      (think (fun _ => GenOutcome.failure "boom") 0 [] "hi").attempts = [(0, 0)] ∧
      (think (fun _ => GenOutcome.failure "boom") 0 [] "hi").history =
        (appendUserEvict [] "hi").dropLast ∧
      Turn.mk "user" "hi" ∉ (think (fun _ => GenOutcome.failure "boom") 0 [] "hi").history :=
  c2_other_error_aborts _ "boom" 0 [] "hi" rfl (by decide) (by decide) (by decide)

theorem c3_chain_exhaustion_witness :
    (think (fun _ => GenOutcome.failure "429") 0 [] "hi").modelIndex = MODELS.length ∧
      (think (fun _ => GenOutcome.failure "429") 0 [] "hi").attempts =
        [(0, 0), (0, 1), (0, 2), (1, 0), (1, 1), (1, 2), (2, 0), (2, 1), (2, 2)] ∧
      (think (fun _ => GenOutcome.failure "429") 0 [] "hi").reply = exhaustedReply ∧
      (think (fun _ => GenOutcome.failure "429") 0 [] "hi").history =
        (appendUserEvict [] "hi").dropLast ∧
      Turn.mk "user" "hi" ∉ (think (fun _ => GenOutcome.failure "429") 0 [] "hi").history :=
  c3_chain_exhaustion _ (fun _ => "429") (fun _ => rfl)
    (fun _ => by show isRateLimitError "429" = true; decide) [] "hi" (by decide)

theorem c7_cursor_monotone_and_absorbing_witness :
    5 ≤ (think (fun _ => GenOutcome.success "ok") 5 [] "hi").modelIndex ∧
      ((think (fun _ => GenOutcome.success "ok") 5 [] "hi").attempts = [] ∧
        (think (fun _ => GenOutcome.success "ok") 5 [] "hi").reply = exhaustedReply ∧
        (think (fun _ => GenOutcome.success "ok") 5 [] "hi").modelIndex = 5 ∧
        (think (fun _ => GenOutcome.success "ok") 5 [] "hi").history =
          (appendUserEvict [] "hi").dropLast) :=
  ⟨(c7_cursor_monotone_and_absorbing (fun _ => GenOutcome.success "ok") 5 [] "hi").1,
    (c7_cursor_monotone_and_absorbing (fun _ => GenOutcome.success "ok") 5 [] "hi").2
      (by decide)⟩

theorem c10_error_classification_witness :
    think (fun _ => GenOutcome.failure "429") 0 [] "hi" =
      thinkGo (fun _ => GenOutcome.failure "429")
        ((MODELS.length - 0) * max_retries - 1) 1 0 1
        (appendUserEvict [] "hi") [10] [(0, 0)] :=
  (c10_error_classification (fun _ => GenOutcome.failure "429") "429" 0 [] "hi"
    rfl (by decide)).1 (by decide)

theorem c8_speech_job_safety_witness :
    (generate_speech_background false).ready_event_set = true ∧
      play_pregenerated none (some ()) (fun _ => false) = PlayOutcome.noop ∧
      play_pregenerated (some "a.mp3") none (fun _ => false) = PlayOutcome.noop ∧
      play_pregenerated (some "a.mp3") (some ()) (fun _ => false) = PlayOutcome.noop :=
  ⟨(c8_speech_job_safety false "a.mp3" (some ()) (fun _ => false)).1,
    (c8_speech_job_safety false "a.mp3" (some ()) (fun _ => false)).2.1,
    (c8_speech_job_safety false "a.mp3" (some ()) (fun _ => false)).2.2.1,
    (c8_speech_job_safety false "a.mp3" (some ()) (fun _ => false)).2.2.2 rfl⟩

theorem c9_deliver_joins_both_witness : (⟨4, 2⟩ : DeliverState).audioPC = 2 :=
  (c9_deliver_joins_both true).1 ⟨4, 2⟩ (c9_deliver_joins_both true).2 rfl
